import Mathlib

/-!
# Shallow embedding of the bitICP stablecoin canister core

Definitions in this file are translated from `src/canisters/stablecoin/src/lib.rs`.
Conventions:
* bytes are naturals below 256, byte strings are `List Nat`;
* Rust `u64` arithmetic is modelled on `Nat` with explicit `% 2 ^ 64`
  (resp. saturation) where the source wraps (resp. saturates);
* Rust `f64` values that only flow through records are modelled as exact
  rationals; the one `f64` computation (`compute_target_collateral_sats`)
  is modelled as exact rational arithmetic, noted at its definition;
* the canister's thread-local `BTreeMap` stores are modelled as functions
  `String → Option _`, with `insert`/`remove` as pointwise updates;
* asynchronous remote calls (HTTP backend, bitcoin API) are modelled by an
  explicit environment record carrying each call's outcome.
-/

namespace Stablecoin

/- ===== Constants (lib.rs:30-49) ===== -/

def TX_FEE_BUFFER_SATS : Nat := 3000
def DEFAULT_ORDINALS_SATS : Nat := 1000
def DEFAULT_FEE_SATS : Nat := 1000
def DEFAULT_RUNE_HEX : String := "00dde905020a00"
def FIXED_MINT_TOKENS : Nat := 10
def FIXED_MINT_USD_CENTS : Nat := 1000
def DEFAULT_MIN_CONFIRMATIONS : Nat := 6
def TAPROOT_LEAF_VERSION : Nat := 0xC0
def CANISTER_VAULTS_ENABLED : Bool := true

/-- `u64::MAX`. -/
def u64Max : Nat := 18446744073709551615

/-- Rust `u64::saturating_add`. -/
def satAdd (a b : Nat) : Nat := min (a + b) u64Max

/-- `canister_vaults_enabled` (lib.rs:538-540). -/
def canister_vaults_enabled : Bool := CANISTER_VAULTS_ENABLED

/- ===== Hex codecs (lib.rs:947-971) ===== -/

/-- Rust `(byte as char).to_digit(16)` (lib.rs:962-967). -/
def hex_digit (c : Char) : Option Nat :=
  if '0' ≤ c ∧ c ≤ '9' then some (c.toNat - '0'.toNat)
  else if 'a' ≤ c ∧ c ≤ 'f' then some (c.toNat - 'a'.toNat + 10)
  else if 'A' ≤ c ∧ c ≤ 'F' then some (c.toNat - 'A'.toNat + 10)
  else none

/-- The pair loop of `from_hex` (lib.rs:961-969); `hi * 16 + lo` is
`(hi << 4) | lo` since both digits are below 16. -/
def from_hex_go : List Char → Except String (List Nat)
  | [] => .ok []
  | [_] => .error "invalid_hex_character"
  | c1 :: c2 :: rest =>
    match hex_digit c1, hex_digit c2 with
    | some hi, some lo =>
      match from_hex_go rest with
      | .ok out => .ok ((hi * 16 + lo) :: out)
      | .error e => .error e
    | _, _ => .error "invalid_hex_character"

/-- `from_hex` (lib.rs:955-971): rejects odd length, then decodes hex pairs.
The string is modelled by its character list. -/
def from_hex (s : List Char) : Except String (List Nat) :=
  if s.length % 2 ≠ 0 then .error "hex_string_length_must_be_even"
  else from_hex_go s

/-- Lowercase hex digit character, as produced by `format!("{:02x}", byte)`. -/
def hexCharOf (d : Nat) : Char :=
  if d < 10 then Char.ofNat ('0'.toNat + d) else Char.ofNat ('a'.toNat + d - 10)

/-- `to_hex` (lib.rs:947-953): two lowercase hex chars per byte. -/
def to_hex : List Nat → List Char
  | [] => []
  | b :: rest => hexCharOf (b / 16) :: hexCharOf (b % 16) :: to_hex rest

/-- Rust `str::trim` on the character list (whitespace stripped at both ends). -/
def trimChars (s : List Char) : List Char :=
  ((s.dropWhile Char.isWhitespace).reverse.dropWhile Char.isWhitespace).reverse

/- ===== Component-key parsing (lib.rs:804-822) ===== -/

/-- `parse_x_only_key` (lib.rs:804-822): accepts 32-byte x-only hex, or
33-byte compressed hex with leading `0x02`/`0x03` (parity byte dropped). -/
def parse_x_only_key (s : List Char) : Except String (List Nat) :=
  match from_hex (trimChars s) with
  | .error e => .error e
  | .ok bytes =>
    if bytes.length = 32 then .ok bytes
    else if bytes.length = 33 then
      if bytes.head? ≠ some 0x02 ∧ bytes.head? ≠ some 0x03 then
        .error "invalid_compressed_pubkey"
      else .ok bytes.tail
    else .error "invalid_pubkey_length"

/- ===== Script construction (lib.rs:824-846) ===== -/

/-- `encode_script_num` (lib.rs:840-846): minimal encoding of a `u8` threshold,
`OP_0` for 0, `OP_1`..`OP_16` (`0x50 + v`) for 1..16, the raw byte otherwise. -/
def encode_script_num (value : Nat) : List Nat :=
  if value = 0 then [0x00]
  else if 1 ≤ value ∧ value ≤ 16 then [0x50 + value]
  else [value]

/-- The per-key loop of `multi_a_script` (lib.rs:826-834): a `0x20` push of the
key, then `OP_CHECKSIG` (`0xAC`) after index 0 and `OP_CHECKSIGADD` (`0xBA`)
after every later index. -/
def multi_a_keys : List (List Nat) → Nat → List Nat
  | [], _ => []
  | k :: rest, idx =>
    0x20 :: k ++ [if idx = 0 then 0xAC else 0xBA] ++ multi_a_keys rest (idx + 1)

/-- `multi_a_script` (lib.rs:824-838). -/
def multi_a_script (keys : List (List Nat)) (threshold : Nat) : List Nat :=
  multi_a_keys keys 0 ++ encode_script_num threshold ++ [0x9C]

/- ===== Collateral sizing (lib.rs:1033-1037) ===== -/

/-- `compute_target_collateral_sats` (lib.rs:1033-1037). The Rust body computes
in `f64` and casts via `.ceil() as u64` (a saturating cast); the `f64`
arithmetic is modelled as exact rational arithmetic, and the cast as
`Int.toNat` capped at `u64::MAX`. -/
def compute_target_collateral_sats (price : ℚ) (ratio_bps usd_cents : Nat) : Nat :=
  let usd : ℚ := (usd_cents : ℚ) / 100
  let ratio : ℚ := (ratio_bps : ℚ) / 10000
  min (Int.toNat ⌈usd * ratio / price * 100000000⌉) u64Max

/- ===== Vault-id allocation (lib.rs:505-516) ===== -/

/-- `next_vault_id` (lib.rs:505-516) as a transition on the persisted
`next_vault_id` counter. `now` is `ic_cdk::api::time()` (a `u64`, nanoseconds).
Returns the allocated id and the new counter; `wrapping_add(1).max(1)` is
modelled with an explicit `% 2 ^ 64`. -/
def next_vault_id (now counter : Nat) : Nat × Nat :=
  let now1 := max now 1
  let c := if now1 > counter then now1 else counter
  (c, max ((c + 1) % 2 ^ 64) 1)

/-- Successive `next_vault_id` calls with the given `time()` readings,
threading the counter; returns the allocated ids in call order. -/
def run_vault_ids : List Nat → Nat → List Nat
  | [], _ => []
  | t :: ts, c =>
    let r := next_vault_id t c
    r.1 :: run_vault_ids ts r.2

/- ===== SHA-256 (the `sha2` crate behaviour, used by lib.rs:903-915) ===== -/

/-- Truncation to 32 bits. -/
def u32 (x : Nat) : Nat := x % 4294967296

/-- 32-bit right rotation. -/
def rotr32 (n x : Nat) : Nat := u32 ((x >>> n) ||| (x <<< (32 - n)))

/-- 32-bit complement. -/
def not32 (x : Nat) : Nat := x ^^^ 4294967295

/-- SHA-256 round constants (the standard table, written in decimal). -/
def sha_k : List Nat :=
  [1116352408, 1899447441, 3049323471, 3921009573, 961987163, 1508970993,
   2453635748, 2870763221, 3624381080, 310598401, 607225278, 1426881987,
   1925078388, 2162078206, 2614888103, 3248222580, 3835390401, 4022224774,
   264347078, 604807628, 770255983, 1249150122, 1555081692, 1996064986,
   2554220882, 2821834349, 2952996808, 3210313671, 3336571891, 3584528711,
   113926993, 338241895, 666307205, 773529912, 1294757372, 1396182291,
   1695183700, 1986661051, 2177026350, 2456956037, 2730485921, 2820302411,
   3259730800, 3345764771, 3516065817, 3600352804, 4094571909, 275423344,
   430227734, 506948616, 659060556, 883997877, 958139571, 1322822218,
   1537002063, 1747873779, 1955562222, 2024104815, 2227730452, 2361852424,
   2428436474, 2756734187, 3204031479, 3329325298]

/-- SHA-256 initial hash value (the standard eight words, written in decimal). -/
def sha_h0 : List Nat :=
  [1779033703, 3144134277, 1013904242, 2773480762,
   1359893119, 2600822924, 528734635, 1541459225]

/-- Big-endian bytes (fixed width `n`) of a natural number. -/
def beBytes : Nat → Nat → List Nat
  | 0, _ => []
  | n + 1, value => beBytes n (value / 256) ++ [value % 256]

/-- Little-endian bytes (fixed width `n`) of a natural number, as produced by
Rust `to_le_bytes`. -/
def leBytes : Nat → Nat → List Nat
  | 0, _ => []
  | n + 1, value => value % 256 :: leBytes n (value / 256)

/-- Group a byte list into big-endian 32-bit words. -/
def bytesToWords : List Nat → List Nat
  | b0 :: b1 :: b2 :: b3 :: rest =>
    (((b0 * 256 + b1) * 256 + b2) * 256 + b3) :: bytesToWords rest
  | _ => []

/-- Extend the 16 block words to the 64-entry message schedule. -/
def sha_extend (w0 : Array Nat) : Array Nat :=
  (List.range 48).foldl (fun w _ =>
    let i := w.size
    let w15 := w[i - 15]!
    let w2 := w[i - 2]!
    let s0 := (rotr32 7 w15) ^^^ (rotr32 18 w15) ^^^ (w15 >>> 3)
    let s1 := (rotr32 17 w2) ^^^ (rotr32 19 w2) ^^^ (w2 >>> 6)
    w.push (u32 (w[i - 16]! + s0 + w[i - 7]! + s1))) w0

/-- One SHA-256 compression round on the eight working variables. -/
def sha_round (s : List Nat) (kw : Nat) : List Nat :=
  match s with
  | [a, b, c, d, e, f, g, h] =>
    let e1 := (rotr32 6 e) ^^^ (rotr32 11 e) ^^^ (rotr32 25 e)
    let ch := (e &&& f) ^^^ (not32 e &&& g)
    let t1 := u32 (h + e1 + ch + kw)
    let a0 := (rotr32 2 a) ^^^ (rotr32 13 a) ^^^ (rotr32 22 a)
    let mj := (a &&& b) ^^^ (a &&& c) ^^^ (b &&& c)
    let t2 := u32 (a0 + mj)
    [u32 (t1 + t2), a, b, c, u32 (d + t1), e, f, g]
  | other => other

/-- SHA-256 compression of one 64-byte block into the running hash. -/
def sha_compress (hs : List Nat) (block : List Nat) : List Nat :=
  let w := sha_extend (bytesToWords block).toArray
  let s := (List.range 64).foldl (fun s i => sha_round s (sha_k.getD i 0 + w[i]!)) hs
  (List.zip hs s).map fun p => u32 (p.1 + p.2)

/-- SHA-256 message padding: `0x80`, zeros to 56 mod 64, 8-byte big-endian bit length. -/
def sha_pad (msg : List Nat) : List Nat :=
  let len := msg.length
  msg ++ 0x80 :: List.replicate ((119 - len % 64) % 64) 0 ++ beBytes 8 (len * 8)

/-- Split into 64-byte blocks. -/
def chunks64 (l : List Nat) : List (List Nat) :=
  if h : l = [] then [] else l.take 64 :: chunks64 (l.drop 64)
termination_by l.length
decreasing_by
  simp only [List.length_drop]
  have : 0 < l.length := List.length_pos.mpr h
  omega

/-- SHA-256 of a byte list. -/
def sha256 (msg : List Nat) : List Nat :=
  ((chunks64 (sha_pad msg)).foldl sha_compress sha_h0).foldr
    (fun w acc => beBytes 4 w ++ acc) []

/- ===== Tagged hashing and Taproot tree (lib.rs:848-933) ===== -/

/-- UTF-8 bytes of a string; the tags used here are ASCII. -/
def strBytes (s : String) : List Nat := s.data.map Char.toNat

/-- `tagged_hash` (lib.rs:903-915): `SHA256(SHA256(tag) ‖ SHA256(tag) ‖ data)`. -/
def tagged_hash (tag : String) (data : List Nat) : List Nat :=
  let tagDigest := sha256 (strBytes tag)
  sha256 (tagDigest ++ tagDigest ++ data)

/-- `encode_varint` (lib.rs:917-933). -/
def encode_varint (value : Nat) : List Nat :=
  if value < 0xFD then [value]
  else if value ≤ 0xFFFF then 0xFD :: leBytes 2 value
  else if value ≤ 0xFFFFFFFF then 0xFE :: leBytes 4 value
  else 0xFF :: leBytes 8 value

/-- `tap_leaf_hash` (lib.rs:848-854). -/
def tap_leaf_hash (script : List Nat) : List Nat :=
  tagged_hash "TapLeaf" (TAPROOT_LEAF_VERSION :: (encode_varint script.length ++ script))

/-- Rust `<[u8; 32] as Ord>::le`: lexicographic byte comparison, which on
equal-length big-endian byte strings coincides with numeric order. -/
def bytesLe : List Nat → List Nat → Bool
  | [], _ => true
  | _ :: _, [] => false
  | x :: xs, y :: ys => if x < y then true else if y < x then false else bytesLe xs ys

/-- `tap_branch_hash` (lib.rs:856-866): the two child hashes are ordered
(smaller first) before tagged hashing. -/
def tap_branch_hash (left right : List Nat) : List Nat :=
  let p := if bytesLe left right then (left, right) else (right, left)
  tagged_hash "TapBranch" (p.1 ++ p.2)

/- ===== secp256k1 layer (the `k256` crate behaviour, lib.rs:868-901) ===== -/

/-- The secp256k1 field characteristic. -/
def secp_p : Nat :=
  115792089237316195423570985008687907853269984665640564039457584007908834671663

/-- The secp256k1 group order. -/
def secp_n : Nat :=
  115792089237316195423570985008687907852837564279074904382605163141518161494337

/-- Modular exponentiation by binary recursion on the exponent. -/
def powMod (b e m : Nat) : Nat :=
  if h : e = 0 then 1 % m
  else
    let r := powMod (b * b % m) (e / 2) m
    if e % 2 = 1 then r * (b % m) % m else r
termination_by e
decreasing_by exact Nat.div_lt_self (Nat.pos_of_ne_zero h) (by omega)

/-- Inverse in the prime field `ℤ/p` via Fermat. -/
def invMod (a m : Nat) : Nat := powMod a (m - 2) m

/-- An affine secp256k1 point or the point at infinity. -/
inductive ECPoint
  | inf
  | mk (x y : Nat)
deriving DecidableEq

/-- Affine point addition on secp256k1. -/
def ec_add : ECPoint → ECPoint → ECPoint
  | .inf, q => q
  | p, .inf => p
  | .mk x1 y1, .mk x2 y2 =>
    if x1 = x2 then
      if (y1 + y2) % secp_p = 0 then .inf
      else
        let l := 3 * x1 * x1 % secp_p * invMod (2 * y1 % secp_p) secp_p % secp_p
        let xr := (l * l % secp_p + 2 * secp_p - x1 - x2) % secp_p
        .mk xr ((l * ((x1 + secp_p - xr) % secp_p) % secp_p + secp_p - y1 % secp_p) % secp_p)
    else
      let l := (y2 + secp_p - y1) % secp_p * invMod ((x2 + secp_p - x1) % secp_p) secp_p % secp_p
      let xr := (l * l % secp_p + 2 * secp_p - x1 - x2) % secp_p
      .mk xr ((l * ((x1 + secp_p - xr) % secp_p) % secp_p + secp_p - y1 % secp_p) % secp_p)

/-- Scalar multiplication by binary recursion. -/
def ec_mul (k : Nat) (p : ECPoint) : ECPoint :=
  if h : k = 0 then .inf
  else
    let r := ec_mul (k / 2) (ec_add p p)
    if k % 2 = 1 then ec_add r p else r
termination_by k
decreasing_by exact Nat.div_lt_self (Nat.pos_of_ne_zero h) (by omega)

/-- The secp256k1 base point. -/
def secp_g : ECPoint :=
  .mk 0x79BE667EF9DCBBAC55A06295CE870B07029BFCDB2DCE28D959F2815B16F81798
     0x483ADA7726A3C4655DA4FBFC0E1108A8FD17B448A68554199C47D08FFB10D4B8

/-- Big-endian value of a byte list. -/
def bytesToNat (bytes : List Nat) : Nat := bytes.foldl (fun acc b => acc * 256 + b) 0

/-- `projective_point_from_xonly` (lib.rs:892-901): prepends `0x02` and decodes
per SEC1, i.e. lifts the x coordinate to the even-y curve point when one
exists; any failure is `invalid_internal_key`. -/
def projective_point_from_xonly (bytes : List Nat) : Except String ECPoint :=
  let x := bytesToNat bytes
  let c := (x ^ 3 + 7) % secp_p
  let y := powMod c ((secp_p + 1) / 4) secp_p
  if x < secp_p ∧ y * y % secp_p = c then
    .ok (.mk x (if y % 2 = 0 then y else secp_p - y))
  else .error "invalid_internal_key"

/-- `taproot_output_key` (lib.rs:868-890): tweak the internal key by the
"TapTweak" tagged hash of (internal key ‖ merkle root); the x coordinate of
the identity point is unavailable (`tweaked_point_missing_x`). -/
def taproot_output_key (internal_key : List Nat) (merkle_root : Option (List Nat)) :
    Except String (List Nat) :=
  let payload := internal_key ++ (match merkle_root with | some root => root | none => [])
  let tweak := tagged_hash "TapTweak" payload
  let tweak_scalar := bytesToNat tweak % secp_n
  match projective_point_from_xonly internal_key with
  | .error e => .error e
  | .ok p =>
    match ec_add p (ec_mul tweak_scalar secp_g) with
    | .inf => .error "tweaked_point_missing_x"
    | .mk x _ => .ok (beBytes 32 x)

/- ===== Data model (lib.rs:55-127, 409-445, 1105-1470) =====
Fields that only feed the HTTP transport (xrc ids, cycles budgets, schnorr key
name, protocol key strings) are omitted from `Settings` where no modelled
operation reads them. `f64` fields are modelled as exact rationals. -/

structure InputRef where
  txid : String
  vout : Nat
deriving DecidableEq

structure ChangeOutput where
  address : String
  amount_btc : String
deriving DecidableEq

structure MintResult where
  wallet : String
  vault_address : String
  vault_id : String
  protocol_public_key : String
  protocol_chain_code : String
  descriptor : String
  original_psbt : String
  patched_psbt : String
  raw_transaction_hex : String
  inputs : List InputRef
  change_output : Option ChangeOutput
  collateral_sats : Nat
  rune : String
  fee_rate : ℚ
  ordinals_address : String
  payment_address : String
deriving DecidableEq

/-- `PendingMintRecord` (lib.rs:1396-1403). -/
structure PendingMintRecord where
  vault : MintResult
  btc_price_usd : ℚ
  mint_tokens : Nat
  mint_usd_cents : Nat
  created_at : Nat
deriving DecidableEq

/-- `StoredVaultRecord` (lib.rs:416-438). -/
structure StoredVaultRecord where
  vault_id : String
  payment_address : String
  ordinals_address : String
  vault_address : String
  protocol_public_key : String
  protocol_chain_code : String
  collateral_sats : Nat
  rune : String
  fee_rate : ℚ
  created_at : Nat
  txid : Option String
  withdraw_txid : Option String
  confirmations : Nat
  min_confirmations : Nat
  withdrawable : Bool
  mint_tokens : Option ℚ
  mint_usd_cents : Option Nat
  collateral_ratio_bps : Option Nat
  last_btc_price_usd : Option ℚ
  health : Option String
deriving DecidableEq

structure CollateralParams where
  ratio_bps : Nat
  usd_cents : Nat

structure BackendConfig where
  base_url : String
  api_key : Option String
  ordinals_sats : Nat
  fee_recipient_sats : Nat
  fee_recipient_address : String
  rune_op_return_hex : String

structure Settings where
  backend : BackendConfig
  collateral : CollateralParams
  next_vault_id : Nat

/- ===== Pending/vault stores (lib.rs:129-133, 542-608) =====
The thread-local `BTreeMap<String, _>` stores are modelled as functions
`String → Option _`; `insert`/`remove` are pointwise updates. -/

abbrev PendingStore := String → Option PendingMintRecord

abbrev VaultStore := String → Option StoredVaultRecord

structure CanisterState where
  pending : PendingStore
  vaults : VaultStore

/-- `store_pending_mint` (lib.rs:542-558); `now` is `ic_cdk::api::time()`. -/
def store_pending_mint (result : MintResult) (btc_price_usd : ℚ) (now : Nat)
    (s : PendingStore) : PendingStore :=
  if canister_vaults_enabled = false then s
  else fun k =>
    if k = result.vault_id then
      some { vault := result, btc_price_usd := btc_price_usd,
             mint_tokens := FIXED_MINT_TOKENS, mint_usd_cents := FIXED_MINT_USD_CENTS,
             created_at := now }
    else s k

/-- `take_pending_mint` (lib.rs:560-565): `BTreeMap::remove`, returning the
removed record (if any) and the updated store. -/
def take_pending_mint (vault_id : String) (s : PendingStore) :
    Option PendingMintRecord × PendingStore :=
  if canister_vaults_enabled = false then (none, s)
  else (s vault_id, fun k => if k = vault_id then none else s k)

/-- `restore_pending_mint` (lib.rs:567-575): re-inserts the record under its
own `vault.vault_id`. -/
def restore_pending_mint (record : PendingMintRecord) (s : PendingStore) : PendingStore :=
  if canister_vaults_enabled = false then s
  else fun k => if k = record.vault.vault_id then some record else s k

/-- `persist_finalized_vault` (lib.rs:577-608). -/
def persist_finalized_vault (pending : PendingMintRecord) (txid : String)
    (settings : Settings) (v : VaultStore) : VaultStore :=
  if canister_vaults_enabled = false then v
  else
    let vault := pending.vault
    let record : StoredVaultRecord :=
      { vault_id := vault.vault_id
        payment_address := vault.payment_address
        ordinals_address := vault.ordinals_address
        vault_address := vault.vault_address
        protocol_public_key := vault.protocol_public_key
        protocol_chain_code := vault.protocol_chain_code
        collateral_sats := vault.collateral_sats
        rune := vault.rune
        fee_rate := vault.fee_rate
        created_at := pending.created_at
        txid := some txid
        withdraw_txid := none
        confirmations := 0
        min_confirmations := DEFAULT_MIN_CONFIRMATIONS
        withdrawable := false
        mint_tokens := some (pending.mint_tokens : ℚ)
        mint_usd_cents := some pending.mint_usd_cents
        collateral_ratio_bps := some settings.collateral.ratio_bps
        last_btc_price_usd := some pending.btc_price_usd
        health := some "pending" }
    fun k => if k = record.vault_id then some record else v k

/- ===== txid helpers (lib.rs:653-666) ===== -/

/-- `txid_bytes_to_hex` (lib.rs:653-657): reverse then hex-encode. -/
def txid_bytes_to_hex (txid : List Nat) : String := ⟨to_hex txid.reverse⟩

/-- `txid_from_raw_hex` (lib.rs:659-666): decode, double-SHA256, reverse,
hex-encode. `hex::decode` (even length, hex digits of either case) is
modelled by `from_hex`; the source collapses its error to `"invalid_hex"`. -/
def txid_from_raw_hex (raw_hex : List Char) : Except String String :=
  match from_hex raw_hex with
  | .error _ => .error "invalid_hex"
  | .ok bytes => .ok ⟨to_hex (sha256 (sha256 bytes)).reverse⟩

/- ===== finalize_mint (lib.rs:1643-1758) ===== -/

/-- `FinalizeMintRequest` (lib.rs:1450-1454). -/
structure FinalizeMintRequest where
  vault_id : String
  signed_psbt : String

/-- `FinalizeMintResponse` (lib.rs:1456-1461). -/
structure FinalizeMintResponse where
  vault_id : String
  txid : Option String
  hex : String
deriving DecidableEq

/-- `BackendFinalizeMintResponse` (lib.rs:1463-1470). -/
structure BackendFinalizeMintResponse where
  vault_id : String
  hex : String
  complete : Bool
  txid : Option String

/-- Outcomes of the asynchronous collaborators during one `finalize_mint`
run: the backend HTTP call (`backend_http_request`, lib.rs:1696-1709, as
status and body bytes on success), the `serde_json::from_slice` decode of
the body (lib.rs:1716), and `bitcoin_send_transaction` (lib.rs:1741). -/
structure FinalizeEnv where
  http : Except String (Nat × List Nat)
  parse : List Nat → Except String BackendFinalizeMintResponse
  broadcast : List Nat → Except String Unit

/-- `finalize_mint` (lib.rs:1643-1758). The request body construction is JSON
assembly for the transport and carries no state, so it is not modelled; the
error strings keep the source's shape (formatting of the transported values
is abstracted by plain concatenation). -/
def finalize_mint (env : FinalizeEnv) (settings : Settings) (request : FinalizeMintRequest)
    (st : CanisterState) : Except String FinalizeMintResponse × CanisterState :=
  if canister_vaults_enabled = false then (.error "vault_storage_disabled", st)
  else if (trimChars request.vault_id.data).isEmpty then (.error "missing_vault_id", st)
  else if settings.backend.base_url = "" then (.error "backend_not_configured", st)
  else
    let taken := take_pending_mint request.vault_id st.pending
    match taken.1 with
    | none => (.error "vault_not_pending", { st with pending := taken.2 })
    | some pending =>
      let st1 : CanisterState := { st with pending := taken.2 }
      match env.http with
      | .error err =>
        (.error err, { st1 with pending := restore_pending_mint pending st1.pending })
      | .ok (status, body) =>
        if 400 ≤ status then
          (.error ("backend responded with status " ++ toString status),
           { st1 with pending := restore_pending_mint pending st1.pending })
        else
          match env.parse body with
          | .error err =>
            (.error ("invalid backend json: " ++ err),
             { st1 with pending := restore_pending_mint pending st1.pending })
          | .ok parsed =>
            match parsed.txid.orElse (fun _ => (txid_from_raw_hex parsed.hex.data).toOption) with
            | none =>
              (.error "txid_unavailable",
               { st1 with pending := restore_pending_mint pending st1.pending })
            | some txid_value =>
              match from_hex parsed.hex.data with
              | .error _ =>
                (.error "invalid_hex_from_backend",
                 { st1 with pending := restore_pending_mint pending st1.pending })
              | .ok tx_bytes =>
                match env.broadcast tx_bytes with
                | .error e =>
                  (.error ("bitcoin_send_transaction " ++ e),
                   { st1 with pending := restore_pending_mint pending st1.pending })
                | .ok _ =>
                  (.ok { vault_id := request.vault_id, txid := some txid_value,
                         hex := parsed.hex },
                   { st1 with
                     vaults := persist_finalized_vault pending txid_value settings st1.vaults })

/- ===== UTXO selection (lib.rs:668-782) ===== -/

structure Outpoint where
  txid : List Nat
  vout : Nat
deriving DecidableEq

structure Utxo where
  outpoint : Outpoint
  value : Nat
  height : Nat
deriving DecidableEq

/-- A value of the JSON output map built at lib.rs:748-767: either the
`"data"` OP_RETURN hex string or a BTC amount. -/
inductive OutVal
  | data (hex : String)
  | amount (btc : ℚ)
deriving DecidableEq

abbrev OutMap := String → Option OutVal

/-- `serde_json::Map::insert`. -/
def insertOut (k : String) (v : OutVal) (m : OutMap) : OutMap :=
  fun k' => if k' = k then some v else m k'

structure MintOverrides where
  inputs : List InputRef
  outputs : OutMap

/-- `sats_to_btc_float` (lib.rs:649-651), modelled exactly. -/
def sats_to_btc_float (sats : Nat) : ℚ := (sats : ℚ) / 100000000

/-- The comparator of `utxos.sort_by` (lib.rs:721-725): ascending by
`(value, vout)`. -/
def utxoLe (a b : Utxo) : Bool :=
  Nat.blt a.value b.value || (a.value == b.value && Nat.ble a.outpoint.vout b.outpoint.vout)

/-- The stable sort at lib.rs:721-725. -/
def sortUtxos (l : List Utxo) : List Utxo := l.mergeSort utxoLe

/-- The greedy accumulation loop (lib.rs:727-735): add each output's value
(saturating) and push it, stopping as soon as the running sum reaches
`total_required`. Returns the selected outputs and the final running sum. -/
def greedy_select (total_required : Nat) : List Utxo → Nat → List Utxo × Nat
  | [], sum => ([], sum)
  | u :: rest, sum =>
    let s' := satAdd sum u.value
    if total_required ≤ s' then ([u], s')
    else
      let r := greedy_select total_required rest s'
      (u :: r.1, r.2)

/-- The output map built at lib.rs:748-761, before the conditional change
entry. -/
def base_outputs (rune_hex ordinals_address fee_recipient_address vault_address : String)
    (ordinals_sats fee_sats vault_sats : Nat) : OutMap :=
  insertOut vault_address (.amount (sats_to_btc_float vault_sats))
    (insertOut fee_recipient_address (.amount (sats_to_btc_float fee_sats))
      (insertOut ordinals_address (.amount (sats_to_btc_float ordinals_sats))
        (insertOut "data" (.data rune_hex) fun _ => none)))

/-- The `ordinals_sats` default at lib.rs:680-684. -/
def override_ordinals_sats (cfg : BackendConfig) : Nat :=
  if 0 < cfg.ordinals_sats then cfg.ordinals_sats else DEFAULT_ORDINALS_SATS

/-- The `fee_sats` default at lib.rs:685-689. -/
def override_fee_sats (cfg : BackendConfig) : Nat :=
  if 0 < cfg.fee_recipient_sats then cfg.fee_recipient_sats else DEFAULT_FEE_SATS

/-- The `rune_hex` default at lib.rs:690-694. -/
def override_rune_hex (cfg : BackendConfig) : String :=
  if cfg.rune_op_return_hex = "" then DEFAULT_RUNE_HEX else cfg.rune_op_return_hex

/-- `total_required` (lib.rs:696-699): ordinals + fee + collateral + fixed
transaction-fee buffer, with saturating additions. -/
def override_total_required (cfg : BackendConfig) (vault_sats : Nat) : Nat :=
  satAdd (satAdd (satAdd (override_ordinals_sats cfg) (override_fee_sats cfg)) vault_sats)
    TX_FEE_BUFFER_SATS

/-- `build_mint_overrides` (lib.rs:668-782). The `bitcoin_get_utxos` call is
modelled by its outcome `utxo_fetch`; the final `Value::Object(..).to_string()`
serialization is transport formatting, so the output map itself is kept.
The source's local `let` bindings for the sat amounts are the `override_*`
definitions above. -/
def build_mint_overrides (settings : Settings)
    (payment_address ordinals_address vault_address : String) (vault_sats : Nat)
    (utxo_fetch : Except String (List Utxo)) : Except String (Option MintOverrides) :=
  let cfg := settings.backend
  if cfg.fee_recipient_address = "" ∨ cfg.rune_op_return_hex = "" then .ok none
  else
    let total_required := override_total_required cfg vault_sats
    match utxo_fetch with
    | .error _ => .ok none
    | .ok utxos =>
      if utxos = [] then .ok none
      else
        let sel := greedy_select total_required (sortUtxos utxos) 0
        if sel.2 < total_required then .ok none
        else
          let change_sats := sel.2 - total_required
          let outputs0 := base_outputs (override_rune_hex cfg) ordinals_address
            cfg.fee_recipient_address vault_address (override_ordinals_sats cfg)
            (override_fee_sats cfg) vault_sats
          let outputs :=
            if 0 < change_sats then
              insertOut payment_address (.amount (sats_to_btc_float change_sats)) outputs0
            else outputs0
          .ok (some
            { inputs := sel.1.map fun u =>
                { txid := txid_bytes_to_hex u.outpoint.txid, vout := u.outpoint.vout }
              outputs := outputs })

/-- The running greedy sum over a list of outputs (the saturating addition of
lib.rs:730 folded over the list). -/
def satFold (s0 : Nat) (l : List Utxo) : Nat := l.foldl (fun acc u => satAdd acc u.value) s0

/-- Key consistency of the pending store: every stored record sits under its
own `vault.vault_id`. -/
def KeyConsistent (s : PendingStore) : Prop := ∀ k r, s k = some r → r.vault.vault_id = k

/- ===== Concrete sample values (used only to instantiate witnesses) ===== -/

def sampleMintResult : MintResult :=
  { wallet := "w", vault_address := "va", vault_id := "v1", protocol_public_key := "pk"
    protocol_chain_code := "cc", descriptor := "d", original_psbt := "o"
    patched_psbt := "q", raw_transaction_hex := "ff", inputs := []
    change_output := none, collateral_sats := 25811, rune := "r", fee_rate := 1
    ordinals_address := "oa", payment_address := "pa" }

def samplePending : PendingMintRecord :=
  { vault := sampleMintResult, btc_price_usd := 100734, mint_tokens := 10
    mint_usd_cents := 1000, created_at := 1 }

def sampleSettings : Settings :=
  { backend :=
      { base_url := "https://backend", api_key := none, ordinals_sats := 0
        fee_recipient_sats := 0, fee_recipient_address := "fee"
        rune_op_return_hex := "00" }
    collateral := { ratio_bps := 13000, usd_cents := 2000 }
    next_vault_id := 1 }

def sampleRequest : FinalizeMintRequest := { vault_id := "v1", signed_psbt := "p" }

/-- An environment whose backend call fails outright. -/
def sampleEnvHttpErr : FinalizeEnv :=
  { http := .error "http_request error SysTransient: timeout"
    parse := fun _ => .error "eof", broadcast := fun _ => .ok () }

def samplePendingStore : PendingStore := fun k => if k = "v1" then some samplePending else none

def sampleState : CanisterState := { pending := samplePendingStore, vaults := fun _ => none }

def sampleUtxo (txb : Nat) (vout value : Nat) : Utxo :=
  { outpoint := { txid := [txb], vout := vout }, value := value, height := 0 }

def sampleUtxos : List Utxo := [sampleUtxo 1 0 5000, sampleUtxo 2 1 2000]

/- ============================ Theorems ============================ -/

/- ----- helper lemmas ----- -/

theorem bytesLe_total (xs ys : List Nat) : bytesLe xs ys = true ∨ bytesLe ys xs = true := by
  induction xs generalizing ys with
  | nil => left; rfl
  | cons x xs ih =>
    cases ys with
    | nil => right; rfl
    | cons y ys =>
      rcases Nat.lt_trichotomy x y with h | h | h
      · left; simp [bytesLe, h]
      · subst h
        rcases ih ys with h' | h'
        · left; simp [bytesLe, h']
        · right; simp [bytesLe, h']
      · right; simp [bytesLe, h]

theorem bytesLe_antisymm (xs ys : List Nat) (h1 : bytesLe xs ys = true)
    (h2 : bytesLe ys xs = true) : xs = ys := by
  induction xs generalizing ys with
  | nil =>
    cases ys with
    | nil => rfl
    | cons y ys => simp [bytesLe] at h2
  | cons x xs ih =>
    cases ys with
    | nil => simp [bytesLe] at h1
    | cons y ys =>
      rcases Nat.lt_trichotomy x y with h | h | h
      · simp [bytesLe, h, Nat.lt_asymm h, Nat.ne_of_lt h] at h2
      · subst h
        simp only [bytesLe, Nat.lt_irrefl, if_false] at h1 h2
        rw [ih ys h1 h2]
      · simp [bytesLe, h, Nat.lt_asymm h, Nat.ne_of_lt h] at h1

/- ----- C8 ----- -/

/-- C8: the spending leaf for two component keys at threshold 2 is exactly a
`0x20` push of the first key followed by OP_CHECKSIG (`0xAC`), a `0x20` push
of the second key followed by OP_CHECKSIGADD (`0xBA`), the minimally encoded
threshold literal OP_2 (`0x52`), and OP_NUMEQUAL (`0x9C`); the key order in
the script equals the argument order. -/
theorem multi_a_script_two_key_layout (k1 k2 : List Nat) :
    multi_a_script [k1, k2] 2 =
      0x20 :: (k1 ++ (0xAC :: 0x20 :: (k2 ++ [0xBA, 0x52, 0x9C]))) := by
  simp [multi_a_script, multi_a_keys, encode_script_num]

/- ----- C4 ----- -/

/-- C4: `tap_branch_hash` orders its two 32-byte child hashes (numerically,
via the lexicographic byte order, which agrees with numeric order at equal
length) before tagged-hashing, so it is commutative, and consequently the
Taproot output key built from the branch hash is unchanged when the two
leaves are swapped. -/
theorem tap_branch_hash_comm (l r ik : List Nat) :
    tap_branch_hash l r = tap_branch_hash r l ∧
      taproot_output_key ik (some (tap_branch_hash l r)) =
        taproot_output_key ik (some (tap_branch_hash r l)) := by
  have h : tap_branch_hash l r = tap_branch_hash r l := by
    unfold tap_branch_hash
    cases h1 : bytesLe l r <;> cases h2 : bytesLe r l <;> simp only [if_true, if_false]
    · rcases bytesLe_total l r with h | h
      · rw [h] at h1; cases h1
      · rw [h] at h2; cases h2
    · rfl
    · rfl
    · rw [bytesLe_antisymm l r h1 h2]
  exact ⟨h, by rw [h]⟩

/- ----- C5 ----- -/

/-- C5 counterexample: with the counter at `u64::MAX`, the allocating call
returns `u64::MAX` and the counter wraps (`wrapping_add(1).max(1)` gives 1),
so the following call returns a smaller id — ids are not strictly
increasing across every pair of calls. -/
theorem next_vault_id_wrap_counterexample :
    run_vault_ids [18446744073709551615, 5] 1 = [18446744073709551615, 5] ∧
      ¬ List.Pairwise (fun a b => a < b) (run_vault_ids [18446744073709551615, 5] 1) := by
  constructor
  · rfl
  · intro hp
    rw [show run_vault_ids [18446744073709551615, 5] 1 = [18446744073709551615, 5] from rfl] at hp
    have := List.rel_of_pairwise_cons hp (List.mem_singleton.mpr rfl)
    omega

theorem run_vault_ids_aux (ts : List Nat) (c : Nat)
    (hno : ∀ id ∈ run_vault_ids ts c, id < u64Max) :
    List.Pairwise (fun a b => a < b) (run_vault_ids ts c) ∧
      ∀ x ∈ run_vault_ids ts c, c ≤ x := by
  induction ts generalizing c with
  | nil => simp [run_vault_ids]
  | cons t ts ih =>
    simp only [run_vault_ids, next_vault_id] at hno ⊢
    generalize hid : (if max t 1 > c then max t 1 else c) = id at hno ⊢
    have hcle : c ≤ id := by
      rw [← hid]; split <;> omega
    have hlt : id < u64Max := hno id (List.mem_cons_self _ _)
    have hwrap : max ((id + 1) % 2 ^ 64) 1 = id + 1 := by
      have h1 : id + 1 < 2 ^ 64 := by
        have h2 : u64Max = 2 ^ 64 - 1 := by norm_num [u64Max]
        omega
      rw [Nat.mod_eq_of_lt h1]
      omega
    rw [hwrap] at hno ⊢
    obtain ⟨hpw, hlb⟩ := ih (id + 1) (fun x hx => hno x (List.mem_cons_of_mem _ hx))
    refine ⟨List.Pairwise.cons (fun x hx => ?_) hpw, ?_⟩
    · have := hlb x hx; omega
    · intro x hx
      rcases List.mem_cons.mp hx with rfl | hx'
      · exact hcle
      · have := hlb x hx'; omega

/-- C5 (amended): vault ids are allocated by a monotonic counter seeded from
the coarse time source, and every call returns an id strictly greater than
the id of any earlier call, provided no call has returned `u64::MAX`
(at which the `wrapping_add` counter wraps). -/
theorem run_vault_ids_strictly_increasing (ts : List Nat) (c : Nat)
    (hno : ∀ id ∈ run_vault_ids ts c, id < u64Max) :
    List.Pairwise (fun a b => a < b) (run_vault_ids ts c) :=
  (run_vault_ids_aux ts c hno).1

/-- C5 witness: three calls at times 10, 3, 7 from counter 1 yield the
strictly increasing ids 10, 11, 12. -/
theorem run_vault_ids_strictly_increasing_witness :
    List.Pairwise (fun a b => a < b) (run_vault_ids [10, 3, 7] 1) :=
  run_vault_ids_strictly_increasing [10, 3, 7] 1 (by decide)

/- ----- C3 ----- -/

theorem compute_target_collateral_sats_concrete :
    compute_target_collateral_sats (1007341 / 10) 13000 2000 = 25811 := by
  simp only [compute_target_collateral_sats]
  have hx : ((2000 : Nat) : ℚ) / 100 * (((13000 : Nat) : ℚ) / 10000) / (1007341 / 10)
      * 100000000 = 26000000000 / 1007341 := by
    norm_num
  rw [hx]
  have hceil : ⌈(26000000000 : ℚ) / 1007341⌉ = 25811 := by
    rw [Int.ceil_eq_iff]
    constructor <;> norm_num
  rw [hceil]
  decide

/-- C3 counterexample: at the spec's literal inputs (`price_usd = 100734.10`,
`ratio_bps = 13000`, `usd_cents = 2000`) the sizing function returns
`⌈26·10⁹ / 1007341⌉ = 25811` satoshis, not 25815 — the claim's own formula
evaluates to 25811. -/
theorem compute_target_collateral_sats_not_25815 :
    compute_target_collateral_sats (1007341 / 10) 13000 2000 ≠ 25815 := by
  rw [compute_target_collateral_sats_concrete]
  omega

/-- C3 (amended): at the claim's literal inputs the sizing function returns
25811 = ⌈20 · 1.3 / 100734.10 · 10⁸⌉, and (modelling the `f64` arithmetic as
exact rational arithmetic) for every positive price whose exact ceiling fits
in `u64` the result is the upward rounding of
`(usd_cents/100) · (ratio_bps/10000) / price_usd · 10⁸`, never below the
exact real value. -/
theorem compute_target_collateral_sats_spec (price : ℚ) (ratio_bps usd_cents : Nat)
    (hp : 0 < price)
    (hfit : ⌈(usd_cents : ℚ) / 100 * ((ratio_bps : ℚ) / 10000) / price * 100000000⌉ < 2 ^ 64) :
    ((compute_target_collateral_sats price ratio_bps usd_cents : ℚ) =
        (⌈(usd_cents : ℚ) / 100 * ((ratio_bps : ℚ) / 10000) / price * 100000000⌉ : ℤ)
      ∧ (usd_cents : ℚ) / 100 * ((ratio_bps : ℚ) / 10000) / price * 100000000 ≤
          (compute_target_collateral_sats price ratio_bps usd_cents : ℚ))
      ∧ compute_target_collateral_sats (1007341 / 10) 13000 2000 = 25811 := by
  set x : ℚ := (usd_cents : ℚ) / 100 * ((ratio_bps : ℚ) / 10000) / price * 100000000 with hxdef
  have hx0 : 0 ≤ x := by
    rw [hxdef]
    positivity
  have hc0 : 0 ≤ ⌈x⌉ := Int.ceil_nonneg hx0
  have hval : compute_target_collateral_sats price ratio_bps usd_cents = ⌈x⌉.toNat := by
    simp only [compute_target_collateral_sats]
    rw [← hxdef]
    have hle : ⌈x⌉.toNat ≤ u64Max := by
      have h64 : (2 : ℤ) ^ 64 = 18446744073709551616 := by norm_num
      rw [h64] at hfit
      simp only [u64Max]
      omega
    exact Nat.min_eq_left hle
  have hcast : (compute_target_collateral_sats price ratio_bps usd_cents : ℚ) = (⌈x⌉ : ℚ) := by
    rw [hval]
    exact_mod_cast congrArg (fun z : ℤ => (z : ℚ)) (Int.toNat_of_nonneg hc0)
  refine ⟨⟨hcast, ?_⟩, compute_target_collateral_sats_concrete⟩
  rw [hcast]
  exact Int.le_ceil x

/-- C3 witness for the amended theorem: price 2, ratio 13000 bps, 2000 cents. -/
theorem compute_target_collateral_sats_spec_witness :
    ((compute_target_collateral_sats 2 13000 2000 : ℚ) =
        (⌈((2000 : Nat) : ℚ) / 100 * (((13000 : Nat) : ℚ) / 10000) / 2 * 100000000⌉ : ℤ)
      ∧ ((2000 : Nat) : ℚ) / 100 * (((13000 : Nat) : ℚ) / 10000) / 2 * 100000000 ≤
          (compute_target_collateral_sats 2 13000 2000 : ℚ))
      ∧ compute_target_collateral_sats (1007341 / 10) 13000 2000 = 25811 :=
  compute_target_collateral_sats_spec 2 13000 2000 (by norm_num)
    (by rw [show ((2000 : Nat) : ℚ) / 100 * (((13000 : Nat) : ℚ) / 10000) / 2
          * 100000000 = 1300000000 from by norm_num, show ⌈(1300000000 : ℚ)⌉ = 1300000000
          from Int.ceil_intCast 1300000000]
        norm_num)

/- ----- pending-store helper lemmas ----- -/

theorem store_pending_mint_eq (result : MintResult) (price : ℚ) (now : Nat) (s : PendingStore) :
    store_pending_mint result price now s = fun k =>
      if k = result.vault_id then
        some { vault := result, btc_price_usd := price, mint_tokens := FIXED_MINT_TOKENS,
               mint_usd_cents := FIXED_MINT_USD_CENTS, created_at := now }
      else s k := rfl

theorem take_pending_mint_fst (vid : String) (s : PendingStore) :
    (take_pending_mint vid s).1 = s vid := rfl

theorem take_pending_mint_snd (vid : String) (s : PendingStore) :
    (take_pending_mint vid s).2 = fun k => if k = vid then none else s k := rfl

theorem restore_pending_mint_eq (record : PendingMintRecord) (s : PendingStore) :
    restore_pending_mint record s =
      fun k => if k = record.vault.vault_id then some record else s k := rfl

/-- Restoring the record taken from a key-consistent store undoes the take. -/
theorem restore_after_take (s : PendingStore) (vid : String) (rec : PendingMintRecord)
    (hkc : KeyConsistent s) (h : s vid = some rec) :
    restore_pending_mint rec (take_pending_mint vid s).2 = s := by
  have hr : rec.vault.vault_id = vid := hkc vid rec h
  funext k
  rw [restore_pending_mint_eq, take_pending_mint_snd]
  dsimp only
  by_cases hk : k = vid
  · simp only [hr, hk, if_pos rfl]
    exact h.symm
  · simp only [hr]
    rw [if_neg hk, if_neg hk]

/- ----- C9 ----- -/

/-- C9: `store_pending_mint` and `restore_pending_mint` insert a record under
its own contained vault id and, like `take_pending_mint`, preserve key
consistency of the pending store; whenever a take returns a record from a
key-consistent store, that record's vault id equals the requested id. -/
theorem pending_store_key_consistency (s : PendingStore) (result : MintResult) (price : ℚ)
    (now : Nat) (rec2 : PendingMintRecord) (vid : String) (rec : PendingMintRecord)
    (hkc : KeyConsistent s)
    (htake : (take_pending_mint vid s).1 = some rec) :
    KeyConsistent (store_pending_mint result price now s)
      ∧ KeyConsistent (restore_pending_mint rec2 s)
      ∧ KeyConsistent (take_pending_mint vid s).2
      ∧ rec.vault.vault_id = vid := by
  refine ⟨?_, ?_, ?_, ?_⟩
  · intro k r h
    rw [store_pending_mint_eq] at h
    dsimp only at h
    by_cases hk : k = result.vault_id
    · rw [if_pos hk] at h
      cases Option.some.inj h
      exact hk.symm
    · rw [if_neg hk] at h
      exact hkc k r h
  · intro k r h
    rw [restore_pending_mint_eq] at h
    dsimp only at h
    by_cases hk : k = rec2.vault.vault_id
    · rw [if_pos hk] at h
      cases Option.some.inj h
      exact hk.symm
    · rw [if_neg hk] at h
      exact hkc k r h
  · intro k r h
    rw [take_pending_mint_snd] at h
    dsimp only at h
    by_cases hk : k = vid
    · rw [if_pos hk] at h
      cases h
    · rw [if_neg hk] at h
      exact hkc k r h
  · rw [take_pending_mint_fst] at htake
    exact hkc vid rec htake

theorem samplePendingStore_consistent : KeyConsistent samplePendingStore := by
  intro k r h
  simp only [samplePendingStore] at h
  by_cases hk : k = "v1"
  · rw [if_pos hk] at h
    cases Option.some.inj h
    exact hk.symm
  · rw [if_neg hk] at h
    cases h

/-- C9 witness at a concrete one-record store. -/
theorem pending_store_key_consistency_witness :
    KeyConsistent (store_pending_mint sampleMintResult 1 2 samplePendingStore)
      ∧ KeyConsistent (restore_pending_mint samplePending samplePendingStore)
      ∧ KeyConsistent (take_pending_mint "v1" samplePendingStore).2
      ∧ samplePending.vault.vault_id = "v1" :=
  pending_store_key_consistency samplePendingStore sampleMintResult 1 2 samplePending "v1"
    samplePending samplePendingStore_consistent (by rfl)

/- ----- finalize_mint helper lemmas ----- -/

theorem if_enabled {α : Type} (a b : α) :
    (if canister_vaults_enabled = false then a else b) = b := rfl

/-- When the requested vault id has no pending record (and the guards before
the take pass), `finalize_mint` fails with `vault_not_pending`. -/
theorem finalize_mint_vault_not_pending (env : FinalizeEnv) (settings : Settings)
    (request : FinalizeMintRequest) (st : CanisterState)
    (hid : (trimChars request.vault_id.data).isEmpty = false)
    (hurl : ¬ settings.backend.base_url = "")
    (hnone : st.pending request.vault_id = none) :
    (finalize_mint env settings request st).1 = .error "vault_not_pending" := by
  have hfst : (take_pending_mint request.vault_id st.pending).1 = none := by
    rw [take_pending_mint_fst]; exact hnone
  simp only [finalize_mint, if_enabled, hid, Bool.false_eq_true, if_false, if_neg hurl, hfst]

/-- After a successful take, `finalize_mint` either succeeds and leaves the
taken record out, or fails and puts the taken record back via
`restore_pending_mint`. -/
theorem finalize_mint_after_take (env : FinalizeEnv) (settings : Settings)
    (request : FinalizeMintRequest) (st : CanisterState) (rec : PendingMintRecord)
    (hid : (trimChars request.vault_id.data).isEmpty = false)
    (hurl : ¬ settings.backend.base_url = "")
    (htake : st.pending request.vault_id = some rec) :
    ((∃ v, (finalize_mint env settings request st).1 = .ok v) ∧
        (finalize_mint env settings request st).2.pending =
          (take_pending_mint request.vault_id st.pending).2)
      ∨ ((∃ e, (finalize_mint env settings request st).1 = .error e) ∧
        (finalize_mint env settings request st).2.pending =
          restore_pending_mint rec (take_pending_mint request.vault_id st.pending).2) := by
  have hfst : (take_pending_mint request.vault_id st.pending).1 = some rec := by
    rw [take_pending_mint_fst]; exact htake
  simp only [finalize_mint, if_enabled, hid, Bool.false_eq_true, if_false, if_neg hurl, hfst]
  split
  · exact Or.inr ⟨⟨_, rfl⟩, rfl⟩
  · split
    · exact Or.inr ⟨⟨_, rfl⟩, rfl⟩
    · split
      · exact Or.inr ⟨⟨_, rfl⟩, rfl⟩
      · split
        · exact Or.inr ⟨⟨_, rfl⟩, rfl⟩
        · split
          · exact Or.inr ⟨⟨_, rfl⟩, rfl⟩
          · split
            · exact Or.inr ⟨⟨_, rfl⟩, rfl⟩
            · exact Or.inl ⟨⟨_, rfl⟩, rfl⟩

/- ----- C1 ----- -/

/-- C1: if `finalize_mint` takes the pending record for the requested vault id
(the store being key-consistent, as every store operation maintains) and then
fails at any later step — remote call error, HTTP status ≥ 400, malformed
response JSON, missing txid, invalid transaction hex, or broadcast failure —
the taken record is re-inserted unchanged, so the pending store after the
failed call equals the pending store before it. -/
theorem finalize_mint_restores_pending_on_failure (env : FinalizeEnv) (settings : Settings)
    (request : FinalizeMintRequest) (st : CanisterState) (rec : PendingMintRecord) (e : String)
    (hkc : KeyConsistent st.pending)
    (htake : st.pending request.vault_id = some rec)
    (hfail : (finalize_mint env settings request st).1 = .error e) :
    (finalize_mint env settings request st).2.pending = st.pending := by
  by_cases h1 : (trimChars request.vault_id.data).isEmpty
  · simp only [finalize_mint, if_enabled, h1, if_true]
  · by_cases h2 : settings.backend.base_url = ""
    · simp only [finalize_mint, if_enabled, h1, Bool.false_eq_true, if_false, if_pos h2]
    · rcases finalize_mint_after_take env settings request st rec
        (Bool.not_eq_true _ ▸ h1 : _) h2 htake with ⟨⟨v, hok⟩, _⟩ | ⟨_, hrest⟩
      · rw [hok] at hfail
        cases hfail
      · rw [hrest]
        exact restore_after_take st.pending request.vault_id rec hkc htake

/-- C1 witness: a concrete failing run (backend HTTP error) from a concrete
one-record store leaves the pending store unchanged. -/
theorem finalize_mint_restores_pending_on_failure_witness :
    (finalize_mint sampleEnvHttpErr sampleSettings sampleRequest sampleState).2.pending =
      sampleState.pending :=
  finalize_mint_restores_pending_on_failure sampleEnvHttpErr sampleSettings sampleRequest
    sampleState samplePending "http_request error SysTransient: timeout"
    samplePendingStore_consistent (by rfl) (by rfl)

/- ----- C2 ----- -/

/-- C2: after `store_pending_mint` reserves a record for a vault id, the first
`take_pending_mint` of that id returns exactly the reserved record, a second
take before any restore returns none, and `finalize_mint` run against the
store in that state surfaces the error string "vault_not_pending". -/
theorem reserve_take_exclusivity (s : PendingStore) (result : MintResult)
    (price : ℚ) (now : Nat) (env : FinalizeEnv) (settings : Settings)
    (request : FinalizeMintRequest) (vaults : VaultStore)
    (hid : (trimChars request.vault_id.data).isEmpty = false)
    (hurl : ¬ settings.backend.base_url = "")
    (hreq : request.vault_id = result.vault_id) :
    (take_pending_mint result.vault_id (store_pending_mint result price now s)).1 =
        some { vault := result, btc_price_usd := price, mint_tokens := FIXED_MINT_TOKENS,
               mint_usd_cents := FIXED_MINT_USD_CENTS, created_at := now }
      ∧ (take_pending_mint result.vault_id
          (take_pending_mint result.vault_id (store_pending_mint result price now s)).2).1 = none
      ∧ (finalize_mint env settings request
          { pending := (take_pending_mint result.vault_id
              (store_pending_mint result price now s)).2
            vaults := vaults }).1 = .error "vault_not_pending" := by
  refine ⟨?_, ?_, ?_⟩
  · rw [take_pending_mint_fst, store_pending_mint_eq]
    dsimp only
    rw [if_pos rfl]
  · rw [take_pending_mint_fst, take_pending_mint_snd]
    dsimp only
    rw [if_pos rfl]
  · refine finalize_mint_vault_not_pending env settings request _ hid hurl ?_
    show (take_pending_mint result.vault_id
      (store_pending_mint result price now s)).2 request.vault_id = none
    rw [hreq, take_pending_mint_snd]
    dsimp only
    rw [if_pos rfl]

/-- C2 witness at concrete values. -/
theorem reserve_take_exclusivity_witness :
    (take_pending_mint sampleMintResult.vault_id
        (store_pending_mint sampleMintResult 100734 1 (fun _ => none))).1 =
        some { vault := sampleMintResult, btc_price_usd := 100734,
               mint_tokens := FIXED_MINT_TOKENS, mint_usd_cents := FIXED_MINT_USD_CENTS,
               created_at := 1 }
      ∧ (take_pending_mint sampleMintResult.vault_id
          (take_pending_mint sampleMintResult.vault_id
            (store_pending_mint sampleMintResult 100734 1 (fun _ => none))).2).1 = none
      ∧ (finalize_mint sampleEnvHttpErr sampleSettings sampleRequest
          { pending := (take_pending_mint sampleMintResult.vault_id
              (store_pending_mint sampleMintResult 100734 1 (fun _ => none))).2
            vaults := fun _ => none }).1 = .error "vault_not_pending" :=
  reserve_take_exclusivity (fun _ => none) sampleMintResult 100734 1 sampleEnvHttpErr
    sampleSettings sampleRequest (fun _ => none) (by rfl) (by decide) (by rfl)

/- ----- UTXO selection helper lemmas ----- -/

theorem utxoLe_trans (a b c : Utxo) (h1 : utxoLe a b = true) (h2 : utxoLe b c = true) :
    utxoLe a c = true := by
  simp only [utxoLe, Bool.or_eq_true, Bool.and_eq_true, Nat.blt_eq, beq_iff_eq,
    Nat.ble_eq] at h1 h2 ⊢
  omega

theorem utxoLe_total (a b : Utxo) : (utxoLe a b || utxoLe b a) = true := by
  simp only [utxoLe, Bool.or_eq_true, Bool.and_eq_true, Nat.blt_eq, beq_iff_eq, Nat.ble_eq]
  omega

theorem satFold_cons (s0 : Nat) (u : Utxo) (l : List Utxo) :
    satFold s0 (u :: l) = satFold (satAdd s0 u.value) l := rfl

/-- The saturating fold is the saturated plain sum (for in-range seeds). -/
theorem satFold_eq (l : List Utxo) : ∀ s0, s0 ≤ u64Max →
    satFold s0 l = min (s0 + (l.map Utxo.value).sum) u64Max := by
  induction l with
  | nil =>
    intro s0 h
    simp only [satFold, List.foldl_nil, List.map_nil, List.sum_nil, Nat.add_zero]
    omega
  | cons u l ih =>
    intro s0 h
    rw [satFold_cons, ih (satAdd s0 u.value) (by simp [satAdd])]
    simp only [satAdd, List.map_cons, List.sum_cons, u64Max]
    omega

/-- The greedy loop selects a prefix whose running sums stay below the target
until the last pick, and reaches the target unless it exhausts the list. -/
theorem greedy_select_go (T : Nat) (l : List Utxo) : ∀ s0, s0 < T →
    ∃ rest, l = (greedy_select T l s0).1 ++ rest
      ∧ (greedy_select T l s0).2 = satFold s0 (greedy_select T l s0).1
      ∧ (∀ n < (greedy_select T l s0).1.length, satFold s0 ((greedy_select T l s0).1.take n) < T)
      ∧ (T ≤ (greedy_select T l s0).2 ∨
          (rest = [] ∧ (greedy_select T l s0).2 < T)) := by
  induction l with
  | nil =>
    intro s0 h0
    refine ⟨[], by simp [greedy_select], by simp [greedy_select, satFold], ?_, ?_⟩
    · intro n hn
      simp [greedy_select] at hn
    · exact Or.inr ⟨rfl, by simpa [greedy_select] using h0⟩
  | cons u l ih =>
    intro s0 h0
    by_cases hc : T ≤ satAdd s0 u.value
    · have hg : greedy_select T (u :: l) s0 = ([u], satAdd s0 u.value) := by
        simp [greedy_select, hc]
      refine ⟨l, ?_, ?_, ?_, Or.inl ?_⟩ <;> rw [hg]
      · simp
      · simp [satFold_cons, satFold]
      · intro n hn
        simp only [List.length_singleton] at hn
        interval_cases n
        simpa [satFold] using h0
      · exact hc
    · have hc' : satAdd s0 u.value < T := Nat.lt_of_not_le hc
      have hg : greedy_select T (u :: l) s0 =
          (u :: (greedy_select T l (satAdd s0 u.value)).1,
            (greedy_select T l (satAdd s0 u.value)).2) := by
        simp [greedy_select, hc]
      obtain ⟨rest, heq, hsum, hpref, hterm⟩ := ih (satAdd s0 u.value) hc'
      refine ⟨rest, ?_, ?_, ?_, ?_⟩ <;> rw [hg]
      · simpa using congrArg (u :: ·) heq
      · simpa [satFold_cons] using hsum
      · intro n hn
        cases n with
        | zero => simpa [satFold] using h0
        | succ m =>
          simp only [List.take_succ_cons, satFold_cons]
          exact hpref m (by simpa using hn)
      · simpa using hterm

/- ----- C6 ----- -/

/-- C6: the selector sorts the spendable outputs ascending by (value, vout)
(a permutation of the input set) and greedily accumulates them in that order,
stopping as soon as the running sum reaches the required total `T`. If the
outputs sum to less than `T` it reports no override (`Ok(None)`) rather than
a hard failure; otherwise it selects a prefix of the sorted order whose
running sums stay below `T` until the final pick and whose sum `S'` satisfies
`S' ≥ T`, the change is `S' − T`, and a change output (keyed by the payment
address) is added to the output map only when the change is positive. -/
theorem build_mint_overrides_spec (settings : Settings)
    (payment_address ordinals_address vault_address : String) (vault_sats : Nat)
    (utxos : List Utxo)
    (hfee : ¬ settings.backend.fee_recipient_address = "")
    (hrune : ¬ settings.backend.rune_op_return_hex = "")
    (hne : ¬ utxos = []) :
    List.Pairwise (fun a b => utxoLe a b = true) (sortUtxos utxos)
    ∧ (sortUtxos utxos).Perm utxos
    ∧ (satFold 0 utxos < override_total_required settings.backend vault_sats →
        build_mint_overrides settings payment_address ordinals_address vault_address
          vault_sats (.ok utxos) = .ok none)
    ∧ (override_total_required settings.backend vault_sats ≤ satFold 0 utxos →
        ∃ sel rest ov,
          sortUtxos utxos = sel ++ rest
          ∧ override_total_required settings.backend vault_sats ≤ satFold 0 sel
          ∧ (∀ n < sel.length,
              satFold 0 (sel.take n) < override_total_required settings.backend vault_sats)
          ∧ build_mint_overrides settings payment_address ordinals_address vault_address
              vault_sats (.ok utxos) = .ok (some ov)
          ∧ ov.inputs = sel.map (fun u =>
              { txid := txid_bytes_to_hex u.outpoint.txid, vout := u.outpoint.vout })
          ∧ (0 < satFold 0 sel - override_total_required settings.backend vault_sats →
              ov.outputs = insertOut payment_address
                (.amount (sats_to_btc_float
                  (satFold 0 sel - override_total_required settings.backend vault_sats)))
                (base_outputs (override_rune_hex settings.backend) ordinals_address
                  settings.backend.fee_recipient_address vault_address
                  (override_ordinals_sats settings.backend)
                  (override_fee_sats settings.backend) vault_sats))
          ∧ (satFold 0 sel - override_total_required settings.backend vault_sats = 0 →
              ov.outputs = base_outputs (override_rune_hex settings.backend) ordinals_address
                settings.backend.fee_recipient_address vault_address
                (override_ordinals_sats settings.backend)
                (override_fee_sats settings.backend) vault_sats)) := by
  have hT0 : 0 < override_total_required settings.backend vault_sats := by
    simp only [override_total_required, satAdd, TX_FEE_BUFFER_SATS, u64Max]
    omega
  set T := override_total_required settings.backend vault_sats with hTdef
  have hsorted : List.Pairwise (fun a b => utxoLe a b = true) (sortUtxos utxos) :=
    List.sorted_mergeSort utxoLe_trans utxoLe_total utxos
  have hperm : (sortUtxos utxos).Perm utxos := List.mergeSort_perm utxos utxoLe
  have hsum_eq : satFold 0 (sortUtxos utxos) = satFold 0 utxos := by
    rw [satFold_eq _ 0 (by simp [u64Max]), satFold_eq _ 0 (by simp [u64Max])]
    rw [(hperm.map Utxo.value).sum_eq]
  have hcond : ¬ (settings.backend.fee_recipient_address = ""
      ∨ settings.backend.rune_op_return_hex = "") := not_or.mpr ⟨hfee, hrune⟩
  obtain ⟨rest, heq, hsum, hpref, hterm⟩ := greedy_select_go T (sortUtxos utxos) 0 hT0
  have hself : satFold 0 (greedy_select T (sortUtxos utxos) 0).1 ≤ satFold 0 utxos := by
    rw [satFold_eq _ 0 (Nat.zero_le _), satFold_eq _ 0 (Nat.zero_le _)]
    have h4 : (utxos.map Utxo.value).sum =
        (((greedy_select T (sortUtxos utxos) 0).1 ++ rest).map Utxo.value).sum := by
      rw [← heq]
      exact ((hperm.map Utxo.value).sum_eq).symm
    have h5 : ((greedy_select T (sortUtxos utxos) 0).1.map Utxo.value).sum ≤
        (((greedy_select T (sortUtxos utxos) 0).1 ++ rest).map Utxo.value).sum := by
      simp
    omega
  refine ⟨hsorted, hperm, ?_, ?_⟩
  · intro hlt
    have h2 : (greedy_select T (sortUtxos utxos) 0).2 < T := by
      rcases hterm with h | ⟨hrest, h⟩
      · rw [hsum] at h
        omega
      · exact h
    simp only [build_mint_overrides, if_neg hcond, if_neg hne, ← hTdef]
    rw [if_pos h2]
  · intro hge
    have h2 : T ≤ satFold 0 (greedy_select T (sortUtxos utxos) 0).1 := by
      rcases hterm with h | ⟨hrest, h⟩
      · rw [hsum] at h
        exact h
      · rw [hrest, List.append_nil] at heq
        rw [hsum, ← heq, hsum_eq] at h
        omega
    refine ⟨(greedy_select T (sortUtxos utxos) 0).1, rest,
      { inputs := (greedy_select T (sortUtxos utxos) 0).1.map fun u =>
          { txid := txid_bytes_to_hex u.outpoint.txid, vout := u.outpoint.vout }
        outputs :=
          if 0 < (greedy_select T (sortUtxos utxos) 0).2 - T then
            insertOut payment_address (.amount (sats_to_btc_float
              ((greedy_select T (sortUtxos utxos) 0).2 - T)))
              (base_outputs (override_rune_hex settings.backend) ordinals_address
                settings.backend.fee_recipient_address vault_address
                (override_ordinals_sats settings.backend)
                (override_fee_sats settings.backend) vault_sats)
          else
            base_outputs (override_rune_hex settings.backend) ordinals_address
              settings.backend.fee_recipient_address vault_address
              (override_ordinals_sats settings.backend)
              (override_fee_sats settings.backend) vault_sats },
      heq, h2, hpref, ?_, rfl, ?_, ?_⟩
    · simp only [build_mint_overrides, if_neg hcond, if_neg hne, ← hTdef]
      rw [if_neg (by rw [hsum]; omega)]
    · intro hpos
      dsimp only
      rw [hsum, if_pos hpos]
    · intro hzero
      dsimp only
      rw [hsum, hzero]
      simp

/-- C6 witness: two concrete spendable outputs against the sample settings. -/
theorem build_mint_overrides_spec_witness :
    List.Pairwise (fun a b => utxoLe a b = true) (sortUtxos sampleUtxos)
    ∧ (sortUtxos sampleUtxos).Perm sampleUtxos
    ∧ (satFold 0 sampleUtxos < override_total_required sampleSettings.backend 100 →
        build_mint_overrides sampleSettings "pa" "oa" "va" 100 (.ok sampleUtxos) = .ok none)
    ∧ (override_total_required sampleSettings.backend 100 ≤ satFold 0 sampleUtxos →
        ∃ sel rest ov,
          sortUtxos sampleUtxos = sel ++ rest
          ∧ override_total_required sampleSettings.backend 100 ≤ satFold 0 sel
          ∧ (∀ n < sel.length,
              satFold 0 (sel.take n) < override_total_required sampleSettings.backend 100)
          ∧ build_mint_overrides sampleSettings "pa" "oa" "va" 100 (.ok sampleUtxos) =
              .ok (some ov)
          ∧ ov.inputs = sel.map (fun u =>
              { txid := txid_bytes_to_hex u.outpoint.txid, vout := u.outpoint.vout })
          ∧ (0 < satFold 0 sel - override_total_required sampleSettings.backend 100 →
              ov.outputs = insertOut "pa"
                (.amount (sats_to_btc_float
                  (satFold 0 sel - override_total_required sampleSettings.backend 100)))
                (base_outputs (override_rune_hex sampleSettings.backend) "oa"
                  sampleSettings.backend.fee_recipient_address "va"
                  (override_ordinals_sats sampleSettings.backend)
                  (override_fee_sats sampleSettings.backend) 100))
          ∧ (satFold 0 sel - override_total_required sampleSettings.backend 100 = 0 →
              ov.outputs = base_outputs (override_rune_hex sampleSettings.backend) "oa"
                sampleSettings.backend.fee_recipient_address "va"
                (override_ordinals_sats sampleSettings.backend)
                (override_fee_sats sampleSettings.backend) 100)) :=
  build_mint_overrides_spec sampleSettings "pa" "oa" "va" 100 sampleUtxos
    (by decide) (by decide) (by decide)

/- ----- hex parsing helper lemmas ----- -/

theorem isOk_ok {ε α : Type} (a : α) : (Except.ok a : Except ε α).isOk = true := rfl

theorem isOk_error {ε α : Type} (e : ε) : (Except.error e : Except ε α).isOk = false := rfl

theorem hex_digit_hexCharOf {d : Nat} (h : d < 16) : hex_digit (hexCharOf d) = some d := by
  interval_cases d <;> decide

theorem hexCharOf_not_ws {d : Nat} (h : d < 16) : (hexCharOf d).isWhitespace = false := by
  interval_cases d <;> decide

theorem to_hex_length (bs : List Nat) : (to_hex bs).length = 2 * bs.length := by
  induction bs with
  | nil => rfl
  | cons b rest ih =>
    simp only [to_hex, List.length_cons, ih]
    omega

theorem to_hex_not_ws (bs : List Nat) (h : ∀ b ∈ bs, b < 256) :
    ∀ c ∈ to_hex bs, c.isWhitespace = false := by
  induction bs with
  | nil =>
    intro c hc
    cases hc
  | cons b rest ih =>
    intro c hc
    have hb : b < 256 := h b (by simp)
    simp only [to_hex, List.mem_cons] at hc
    rcases hc with rfl | rfl | hc
    · exact hexCharOf_not_ws (by omega)
    · exact hexCharOf_not_ws (by omega)
    · exact ih (fun x hx => h x (by simp [hx])) c hc

theorem dropWhile_of_none {p : Char → Bool} (s : List Char) (h : ∀ c ∈ s, p c = false) :
    s.dropWhile p = s := by
  cases s with
  | nil => rfl
  | cons c t =>
    rw [List.dropWhile_cons, h c (by simp)]
    simp

theorem trimChars_of_not_ws (s : List Char) (h : ∀ c ∈ s, c.isWhitespace = false) :
    trimChars s = s := by
  unfold trimChars
  rw [dropWhile_of_none s h,
    dropWhile_of_none _ (fun c hc => h c (List.mem_reverse.mp hc)), List.reverse_reverse]

theorem from_hex_go_to_hex (bs : List Nat) (h : ∀ b ∈ bs, b < 256) :
    from_hex_go (to_hex bs) = .ok bs := by
  induction bs with
  | nil => rfl
  | cons b rest ih =>
    have hb : b < 256 := h b (by simp)
    have h1 : b / 16 < 16 := by omega
    have h2 : b % 16 < 16 := by omega
    simp only [to_hex, from_hex_go, hex_digit_hexCharOf h1, hex_digit_hexCharOf h2,
      ih (fun x hx => h x (by simp [hx]))]
    have hbeq : b / 16 * 16 + b % 16 = b := by omega
    rw [hbeq]

theorem from_hex_to_hex (bs : List Nat) (h : ∀ b ∈ bs, b < 256) :
    from_hex (to_hex bs) = .ok bs := by
  unfold from_hex
  rw [to_hex_length, if_neg (by omega)]
  exact from_hex_go_to_hex bs h

/- ----- C7 ----- -/

/-- C7: `parse_x_only_key` accepts exactly the hex encodings of a 32-byte
value or of a 33-byte value whose first byte is `0x02` or `0x03` (every
other decoded length or prefix is rejected), and for a given 32-byte value
the 32-byte x-only encoding and both compressed encodings parse to the same
32-byte component key. -/
theorem parse_x_only_key_spec (bs : List Nat) (cs : List Char)
    (hb : ∀ b ∈ bs, b < 256) (h32 : bs.length = 32) :
    parse_x_only_key (to_hex bs) = .ok bs
    ∧ parse_x_only_key (to_hex (0x02 :: bs)) = .ok bs
    ∧ parse_x_only_key (to_hex (0x03 :: bs)) = .ok bs
    ∧ ((parse_x_only_key cs).isOk = true ↔
        ∃ ds, from_hex (trimChars cs) = .ok ds ∧
          (ds.length = 32 ∨ (ds.length = 33 ∧
            (ds.head? = some 0x02 ∨ ds.head? = some 0x03)))) := by
  have hb2 : ∀ b ∈ (0x02 :: bs), b < 256 := by
    intro x hx
    rcases List.mem_cons.mp hx with rfl | hx
    · omega
    · exact hb x hx
  have hb3 : ∀ b ∈ (0x03 :: bs), b < 256 := by
    intro x hx
    rcases List.mem_cons.mp hx with rfl | hx
    · omega
    · exact hb x hx
  refine ⟨?_, ?_, ?_, ?_⟩
  · simp only [parse_x_only_key, trimChars_of_not_ws _ (to_hex_not_ws bs hb),
      from_hex_to_hex bs hb, h32]
    simp
  · simp only [parse_x_only_key, trimChars_of_not_ws _ (to_hex_not_ws _ hb2),
      from_hex_to_hex _ hb2, List.length_cons, h32]
    simp
  · simp only [parse_x_only_key, trimChars_of_not_ws _ (to_hex_not_ws _ hb3),
      from_hex_to_hex _ hb3, List.length_cons, h32]
    simp
  · cases hfh : from_hex (trimChars cs) with
    | error e =>
      simp only [parse_x_only_key, hfh]
      constructor
      · intro h
        rw [isOk_error] at h
        cases h
      · rintro ⟨ds, hds, -⟩
        cases hds
    | ok ds =>
      simp only [parse_x_only_key, hfh]
      by_cases hl32 : ds.length = 32
      · rw [if_pos hl32]
        simp only [isOk_ok, true_iff]
        exact ⟨ds, rfl, Or.inl hl32⟩
      · rw [if_neg hl32]
        by_cases hl33 : ds.length = 33
        · rw [if_pos hl33]
          by_cases hh : ds.head? = some 0x02 ∨ ds.head? = some 0x03
          · have hcond : ¬ (ds.head? ≠ some 0x02 ∧ ds.head? ≠ some 0x03) := by
              rcases hh with h | h <;> simp [h]
            rw [if_neg hcond]
            simp only [isOk_ok, true_iff]
            exact ⟨ds, rfl, Or.inr ⟨hl33, hh⟩⟩
          · rw [if_pos (not_or.mp hh)]
            simp only [isOk_error, Bool.false_eq_true, false_iff]
            rintro ⟨ds', hds', hcase⟩
            cases Except.ok.inj hds'
            rcases hcase with h | ⟨-, h⟩
            · exact hl32 h
            · exact hh h
        · rw [if_neg hl33]
          simp only [isOk_error, Bool.false_eq_true, false_iff]
          rintro ⟨ds', hds', hcase⟩
          cases Except.ok.inj hds'
          rcases hcase with h | ⟨h, -⟩
          · exact hl32 h
          · exact hl33 h

/-- C7 witness: the all-zero 32-byte key and a non-hex input. -/
theorem parse_x_only_key_spec_witness :
    parse_x_only_key (to_hex (List.replicate 32 0)) = .ok (List.replicate 32 0)
    ∧ parse_x_only_key (to_hex (0x02 :: List.replicate 32 0)) = .ok (List.replicate 32 0)
    ∧ parse_x_only_key (to_hex (0x03 :: List.replicate 32 0)) = .ok (List.replicate 32 0)
    ∧ ((parse_x_only_key ['x']).isOk = true ↔
        ∃ ds, from_hex (trimChars ['x']) = .ok ds ∧
          (ds.length = 32 ∨ (ds.length = 33 ∧
            (ds.head? = some 0x02 ∨ ds.head? = some 0x03)))) :=
  parse_x_only_key_spec (List.replicate 32 0) ['x'] (by decide) (by decide)

end Stablecoin
